import Mathlib

/-!
Verification development for the flow-editing core of syndesis-ui:
the `CurrentFlow` service (src/app/integrations/edit-page/current-flow.service.ts)
and the `StepStore` catalog (src/app/store/step/step.store.ts).

JavaScript data handled by the service (configured properties, JSON clones)
is modelled by a tree of JSON values; machine numbers that appear in payloads
are modelled as integers, since no behaviour of the service depends on
floating-point representation.
-/

namespace Syndesis

/-- A JSON value, as produced by JSON.parse: the payloads the service stores
and clones. Numbers are modelled as integers. -/
inductive JsonVal where
  | null
  | bool (b : Bool)
  | num (n : Int)
  | str (s : String)
  | arr (elems : List JsonVal)
  | obj (fields : List (String × JsonVal))
deriving Repr

/-- Escape one character the way JSON.stringify escapes string contents
(quotes and backslashes; other characters pass through). -/
def jsonEscapeChar (c : Char) : String :=
  if c = '\"' then "\\\"" else if c = '\\' then "\\\\" else String.singleton c

/-- Quote a string the way JSON.stringify renders string values. -/
def jsonQuote (s : String) : String :=
  "\"" ++ String.join (s.toList.map jsonEscapeChar) ++ "\""

mutual

/-- The textual rendering JSON.stringify gives a JSON value. -/
def jsonStringify : JsonVal → String
  | .null => "null"
  | .bool true => "true"
  | .bool false => "false"
  | .num n => toString n
  | .str s => jsonQuote s
  | .arr xs => "[" ++ jsonStringifyElems xs ++ "]"
  | .obj fs => "\x7b" ++ jsonStringifyFields fs ++ "\x7d"

/-- Comma-separated rendering of array elements. -/
def jsonStringifyElems : List JsonVal → String
  | [] => ""
  | [x] => jsonStringify x
  | x :: xs => jsonStringify x ++ "," ++ jsonStringifyElems xs

/-- Comma-separated rendering of object fields. -/
def jsonStringifyFields : List (String × JsonVal) → String
  | [] => ""
  | [(k, v)] => jsonQuote k ++ ":" ++ jsonStringify v
  | (k, v) :: fs => jsonQuote k ++ ":" ++ jsonStringify v ++ "," ++ jsonStringifyFields fs

end

/-- Field access on a JSON object (none on a non-object or a missing key). -/
def JsonVal.lookupField : JsonVal → String → Option JsonVal
  | .obj fs, k => fs.lookup k
  | _, _ => none

/-- Extract a string payload from a JSON value. -/
def asStr : JsonVal → Option String
  | .str s => some s
  | _ => none

/-- Is the value a JSON string? (typeof value === 'string' after a JSON clone). -/
def JsonVal.isStr : JsonVal → Bool
  | .str _ => true
  | _ => false

/-- Is the value a JSON number? (typeof value === 'number' after a JSON clone). -/
def JsonVal.isNum : JsonVal → Bool
  | .num _ => true
  | _ => false

/-- JavaScript falsiness of a JSON value, for guards such as
if (_props) ... . -/
def JsonVal.falsy : JsonVal → Bool
  | .null => true
  | .bool false => true
  | .num 0 => true
  | .str "" => true
  | _ => false

/-- Modelled from the spec: a data shape is "the schema describing an action's
input or output payload" (the model module is not under src/). Only its
presence is consulted by the code; it is kept as a kind plus its schema text. -/
structure DataShape where
  kind : String := ""
  specification : String := ""
deriving Repr, DecidableEq

/-- Modelled from the spec: Action is "\x7b name, inputDataShape?,
outputDataShape? \x7d — describes the shape of data the action
consumes/produces" (the model module is not under src/). -/
structure Action where
  name : String := ""
  inputDataShape : Option DataShape := none
  outputDataShape : Option DataShape := none
deriving Repr, DecidableEq

/-- Modelled from the spec: Connection "identifies an external system; carries
a connectorId used for tag derivation" (the model module is not under src/). -/
structure Connection where
  id : Option String := none
  name : Option String := none
  connectorId : String := ""
deriving Repr, DecidableEq

/-- Modelled from the spec: Step is "\x7b id, stepKind, connection?, action?,
configuredProperties? \x7d" (the model module is not under src/). Every field
is optional: a freshly created placeholder has none of them populated. -/
structure Step where
  id : Option String := none
  stepKind : Option String := none
  connection : Option Connection := none
  action : Option Action := none
  configuredProperties : Option JsonVal := none
deriving Repr

/-- Modelled from the spec: Integration is "\x7b id, name, steps: ordered
sequence of Step, tags: set of string \x7d" (the model module is not under
src/), plus the configuredProperties top-level field settable through
integration-set-property. steps and tags are optional because the source
tolerates their absence (the steps getter initialises a missing list, and the
save branch reads integration.tags || []). -/
structure Integration where
  id : Option String := none
  name : Option String := none
  steps : Option (List Step) := none
  tags : Option (List String) := none
  configuredProperties : Option JsonVal := none
deriving Repr

namespace TypeFactory

/-- Modelled from the spec: TypeFactory.createStep creates "a new blank
processing-step placeholder" — a step with no field populated (the model
module is not under src/; callers that need an endpoint placeholder set
stepKind to "endpoint" afterwards). -/
def createStep : Step := {}

end TypeFactory

/-!
CurrentFlow positional queries. The service's `_integration` field may be
unset, so every query takes an `Option Integration`; `none` plays the role of
the undefined document. JavaScript's undefined result and its null result are
both rendered as `none` (they are distinguished only by identity, which no
caller in the source observes). A query that can throw a TypeError returns an
`Except String` whose error carries the JavaScript error class.

The steps getter and the previous/subsequent step queries lazily repair a
loaded document whose step list is absent: before reading, they assign
this._integration.steps = [] on the live document. Queries on that read path
therefore return the possibly-updated document alongside their result.
-/

/-- The steps getter: undefined when no integration is loaded; otherwise the
integration's step list. An absent list is first materialized to [] on the
live document (the lazy write-back of the getter), so the possibly-updated
document is returned alongside. -/
def flowSteps : Option Integration → Option Integration × Option (List Step)
  | none => (none, none)
  | some i =>
      (some { i with steps := some (i.steps.getD []) }, some (i.steps.getD []))

/-- getFirstPosition(): 0, or undefined when no integration is loaded. -/
def getFirstPosition : Option Integration → Option Nat
  | none => none
  | some _ => some 0

/-- The value getLastPosition() computes on a loaded integration:
1 when the step list has at most one entry, length - 1 otherwise. -/
def lastPositionOf (i : Integration) : Nat :=
  if (i.steps.getD []).length ≤ 1 then 1 else (i.steps.getD []).length - 1

/-- getLastPosition(): undefined when no integration is loaded. -/
def getLastPosition : Option Integration → Option Nat
  | none => none
  | some i => some (lastPositionOf i)

/-- getStep(position): the step at the position, if any. -/
def getStep (s : Option Integration) (position : Nat) : Option Step :=
  match s with
  | none => none
  | some i => (i.steps.getD [])[position]?

/-- isEmpty(): true when no integration is loaded or the step list is empty. -/
def isEmpty : Option Integration → Bool
  | none => true
  | some i => (i.steps.getD []).length = 0

/-- atEnd(position): true when no integration is loaded or position is past
the last step. -/
def atEnd (s : Option Integration) (position : Nat) : Bool :=
  match s with
  | none => true
  | some i => (i.steps.getD []).length ≤ position

/-- getPreviousSteps(position): steps.slice(0, position), undefined when no
integration is loaded. An absent step list is first assigned [] on the live
document (current-flow.service.ts lines 164-166), so the possibly-updated
document is returned alongside the result. -/
def getPreviousSteps (s : Option Integration) (position : Nat) :
    Option Integration × Option (List Step) :=
  match s with
  | none => (none, none)
  | some i =>
      (some { i with steps := some (i.steps.getD []) },
       some ((i.steps.getD []).take position))

/-- getSubsequentSteps(position): steps.slice(position), undefined when no
integration is loaded. An absent step list is first assigned [] on the live
document (current-flow.service.ts lines 132-134), so the possibly-updated
document is returned alongside the result. -/
def getSubsequentSteps (s : Option Integration) (position : Nat) :
    Option Integration × Option (List Step) :=
  match s with
  | none => (none, none)
  | some i =>
      (some { i with steps := some (i.steps.getD []) },
       some ((i.steps.getD []).drop position))

/-- Does the step carry stepKind "endpoint"? -/
def isEndpointStep (st : Step) : Bool :=
  st.stepKind == some "endpoint"

/-- getPreviousConnections(position): the endpoint steps before the position;
the source returns null when getPreviousSteps is undefined, rendered none.
The document updated by the inner query is passed along. -/
def getPreviousConnections (s : Option Integration) (position : Nat) :
    Option Integration × Option (List Step) :=
  match getPreviousSteps s position with
  | (s', some answer) => (s', some (answer.filter isEndpointStep))
  | (s', none) => (s', none)

/-- getSubsequentConnections(position): the endpoint steps from the position
on; the source returns null when getSubsequentSteps is undefined. The
document updated by the inner query is passed along. -/
def getSubsequentConnections (s : Option Integration) (position : Nat) :
    Option Integration × Option (List Step) :=
  match getSubsequentSteps s position with
  | (s', some answer) => (s', some (answer.filter isEndpointStep))
  | (s', none) => (s', none)

/-- getPreviousConnection(position): the source computes
getPreviousConnections(position).reverse()[0]; calling reverse on the null
returned when no integration is loaded throws a TypeError. -/
def getPreviousConnection (s : Option Integration) (position : Nat) :
    Option Integration × Except String (Option Step) :=
  match getPreviousConnections s position with
  | (s', none) => (s', .error "TypeError")
  | (s', some connections) => (s', .ok connections.reverse.head?)

/-- getSubsequentConnection(position): the source computes
getSubsequentConnections(position)[0]; indexing the null returned when no
integration is loaded throws a TypeError. -/
def getSubsequentConnection (s : Option Integration) (position : Nat) :
    Option Integration × Except String (Option Step) :=
  match getSubsequentConnections s position with
  | (s', none) => (s', .error "TypeError")
  | (s', some connections) => (s', .ok connections.head?)

/-!
Array mutation primitives, with JavaScript splice / indexed-assignment
semantics on the step list.
-/

/-- steps.splice(start, 0, v): insert v at start, clamping start to the list
length as splice does. -/
def jsSpliceInsert (xs : List Step) (start : Nat) (v : Step) : List Step :=
  xs.take start ++ v :: xs.drop start

/-- steps.splice(start, 1): delete the element at start if it exists. -/
def jsSpliceDelete (xs : List Step) (start : Nat) : List Step :=
  xs.take start ++ xs.drop (start + 1)

/-- steps[n] = v: in-range assignment replaces; out-of-range assignment
extends the array to make n its last index. JavaScript leaves holes (reads as
undefined) at the skipped indices; they are padded here with blank steps, and
no code path modelled below reads a padded entry. -/
def jsArraySet (xs : List Step) (n : Nat) (v : Step) : List Step :=
  if n < xs.length then xs.set n v
  else xs ++ List.replicate (n - xs.length) TypeFactory.createStep ++ [v]

/-- insertStepAfter(position): splice a blank step in at position + 1. -/
def insertStepAfter (steps : List Step) (position : Nat) : List Step :=
  jsSpliceInsert steps (position + 1) TypeFactory.createStep

/-- insertConnectionAfter(position): splice a blank endpoint placeholder in at
position + 1. -/
def insertConnectionAfter (steps : List Step) (position : Nat) : List Step :=
  jsSpliceInsert steps (position + 1)
    { TypeFactory.createStep with stepKind := some "endpoint" }

/-!
Property normalization: stringifyValues. The source clones the payload through
a JSON round trip (the identity on the JSON value tree modelled here, keys
with undefined values having no representation), then rewrites every entry
whose value is neither a string nor a number to its JSON.stringify text.
-/

/-- The per-value rewrite of stringifyValues: strings and numbers pass through
(the continue branches of the typeof switch), everything else becomes its
serialized text. -/
def stringifyEntry (v : JsonVal) : JsonVal :=
  match v with
  | .str _ => v
  | .num _ => v
  | v => .str (jsonStringify v)

/-- stringifyValues on the field list of a property object. -/
def stringifyValues (props : List (String × JsonVal)) : List (String × JsonVal) :=
  props.map fun kv => (kv.1, stringifyEntry kv.2)

/-- stringifyValues on an arbitrary JSON payload: falsy payloads are returned
unchanged by the guard; an object has each field rewritten; an array has each
element rewritten (Object.keys of an array yields its indices); a remaining
primitive has no own keys to rewrite. -/
def stringifyValuesVal (v : JsonVal) : JsonVal :=
  if v.falsy then v
  else match v with
    | .obj fs => .obj (stringifyValues fs)
    | .arr xs => .arr (xs.map stringifyEntry)
    | v => v

/-!
The structural deep clone getIntegrationClone builds with
JSON.parse(JSON.stringify(integration)), modelled at the JSON value level:
encoding renders the document as the JSON value JSON.stringify serializes
(fields holding undefined are dropped), decoding reads that value back into a
document.
-/

/-- Encode an optional string field, dropping it when absent as
JSON.stringify drops undefined fields. -/
def encodeOptStrField (k : String) : Option String → List (String × JsonVal)
  | none => []
  | some s => [(k, .str s)]

/-- JSON encoding of a data shape. -/
def encodeDataShape (d : DataShape) : JsonVal :=
  .obj [("kind", .str d.kind), ("specification", .str d.specification)]

/-- Decode a data shape from its JSON encoding. -/
def decodeDataShape (j : JsonVal) : DataShape :=
  { kind := ((j.lookupField "kind").bind asStr).getD ""
    specification := ((j.lookupField "specification").bind asStr).getD "" }

/-- JSON encoding of an action. -/
def encodeAction (a : Action) : JsonVal :=
  .obj ([("name", .str a.name)]
    ++ (match a.inputDataShape with
        | none => []
        | some d => [("inputDataShape", encodeDataShape d)])
    ++ (match a.outputDataShape with
        | none => []
        | some d => [("outputDataShape", encodeDataShape d)]))

/-- Decode an action from its JSON encoding. -/
def decodeAction (j : JsonVal) : Action :=
  { name := ((j.lookupField "name").bind asStr).getD ""
    inputDataShape := (j.lookupField "inputDataShape").map decodeDataShape
    outputDataShape := (j.lookupField "outputDataShape").map decodeDataShape }

/-- JSON encoding of a connection. -/
def encodeConnection (c : Connection) : JsonVal :=
  .obj (encodeOptStrField "id" c.id
    ++ encodeOptStrField "name" c.name
    ++ [("connectorId", .str c.connectorId)])

/-- Decode a connection from its JSON encoding. -/
def decodeConnection (j : JsonVal) : Connection :=
  { id := (j.lookupField "id").bind asStr
    name := (j.lookupField "name").bind asStr
    connectorId := ((j.lookupField "connectorId").bind asStr).getD "" }

/-- JSON encoding of a step. -/
def encodeStep (st : Step) : JsonVal :=
  .obj (encodeOptStrField "id" st.id
    ++ encodeOptStrField "stepKind" st.stepKind
    ++ (match st.connection with
        | none => []
        | some c => [("connection", encodeConnection c)])
    ++ (match st.action with
        | none => []
        | some a => [("action", encodeAction a)])
    ++ (match st.configuredProperties with
        | none => []
        | some p => [("configuredProperties", p)]))

/-- Decode a step from its JSON encoding. -/
def decodeStep (j : JsonVal) : Step :=
  { id := (j.lookupField "id").bind asStr
    stepKind := (j.lookupField "stepKind").bind asStr
    connection := (j.lookupField "connection").map decodeConnection
    action := (j.lookupField "action").map decodeAction
    configuredProperties := j.lookupField "configuredProperties" }

/-- Decode a step list from its JSON array encoding. -/
def decodeSteps : JsonVal → List Step
  | .arr xs => xs.map decodeStep
  | _ => []

/-- Decode a tag list from its JSON array encoding. -/
def decodeTags : JsonVal → List String
  | .arr xs => xs.filterMap asStr
  | _ => []

/-- JSON encoding of an integration document. -/
def encodeIntegration (i : Integration) : JsonVal :=
  .obj (encodeOptStrField "id" i.id
    ++ encodeOptStrField "name" i.name
    ++ (match i.steps with
        | none => []
        | some l => [("steps", .arr (l.map encodeStep))])
    ++ (match i.tags with
        | none => []
        | some ts => [("tags", .arr (ts.map JsonVal.str))])
    ++ (match i.configuredProperties with
        | none => []
        | some p => [("configuredProperties", p)]))

/-- Decode an integration document from its JSON encoding. -/
def decodeIntegration (j : JsonVal) : Integration :=
  { id := (j.lookupField "id").bind asStr
    name := (j.lookupField "name").bind asStr
    steps := (j.lookupField "steps").map decodeSteps
    tags := (j.lookupField "tags").map decodeTags
    configuredProperties := j.lookupField "configuredProperties" }

/-- getIntegrationClone(): the poor man's clone
JSON.parse(JSON.stringify(integration)), a structural deep copy sharing no
mutable part with the original. -/
def getIntegrationClone (i : Integration) : Integration :=
  decodeIntegration (encodeIntegration i)

/-!
The command handler. Events are the tagged commands handleEvent dispatches
on; the numeric position payloads are the coerced integers the handler reads
(+event['position']). The onSave / save continuations are caller code outside
this model: maybeDoAction invokes them after the mutation and they do not
touch the handler's own state, so the model records only the state change and
what the save branch submits to the store. Asynchronous activity (the
deferred integration-updated emission, the store's asynchronous reply) is
outside the synchronous portion modelled here.
-/

/-- The tagged events of the command protocol. -/
inductive FlowEvent where
  | integrationUpdated
  | insertStep (position : Nat)
  | insertConnection (position : Nat)
  | removeStep (position : Nat)
  | setStep (position : Nat) (step : Step)
  | setProperties (position : Nat) (properties : JsonVal)
  | setAction (position : Nat) (action : Action)
  | setConnection (position : Nat) (connection : Connection)
  | setProperty (property : String) (value : JsonVal)
  | save

/-- The mutable state the service owns: the integration document (unset until
one is loaded) and the loaded flag. -/
structure FlowState where
  integration : Option Integration := none
  loaded : Bool := false
deriving Repr

/-- The tag merge of the save branch:
tags.indexOf(id) === -1 ? tags.push(id) : false, for each connector id in
order. -/
def mergeTags (tags : List String) (connectorIds : List String) : List String :=
  connectorIds.foldl (fun ts cid => if ts.contains cid then ts else ts ++ [cid]) tags

/-- The save branch's connectors.map(step => step.connection.connectorId):
reading connectorId off an endpoint step with no connection throws a
TypeError at the first such step. -/
def connectorIdsOf : List Step → Except String (List String)
  | [] => .ok []
  | st :: rest =>
    match st.connection with
    | none => .error "TypeError"
    | some c => (connectorIdsOf rest).map (c.connectorId :: ·)

/-- One synchronous run of handleEvent. The first component is the state when
the handler returns (or when a synchronous exception escapes it); the second
is .error with the JavaScript error class when such an exception escapes,
otherwise .ok carrying the integration the save branch submitted to the
persistence store (none for every other branch). -/
def handleEvent (event : FlowEvent) (s : FlowState) :
    FlowState × Except String (Option Integration) :=
  match event with
  | .integrationUpdated =>
      -- marks loaded; the deferred empty-flow notification is asynchronous
      ({ s with loaded := true }, .ok none)
  | .insertStep position =>
      match s.integration with
      -- this.steps is undefined: calling splice on it throws
      | none => (s, .error "TypeError")
      | some i =>
          let steps' := insertStepAfter (i.steps.getD []) position
          ({ s with integration := some { i with steps := some steps' } }, .ok none)
  | .insertConnection position =>
      match s.integration with
      | none => (s, .error "TypeError")
      | some i =>
          let steps' := insertConnectionAfter (i.steps.getD []) position
          ({ s with integration := some { i with steps := some steps' } }, .ok none)
  | .removeStep position =>
      match s.integration with
      -- position === undefined fails for both boundary tests, and the else
      -- branch calls splice on the undefined this.steps
      | none => (s, .error "TypeError")
      | some i =>
          let steps := i.steps.getD []
          if position = 0 ∨ position = lastPositionOf i then
            let blankEndpoint : Step :=
              { TypeFactory.createStep with stepKind := some "endpoint" }
            let steps' := jsArraySet steps position blankEndpoint
            ({ s with integration := some { i with steps := some steps' } }, .ok none)
          else
            let steps' := jsSpliceDelete steps position
            ({ s with integration := some { i with steps := some steps' } }, .ok none)
  | .setStep position step =>
      match s.integration with
      | none => (s, .error "TypeError")
      | some i =>
          let steps := i.steps.getD []
          let fresh : Step := { TypeFactory.createStep with stepKind := step.stepKind }
          let steps' := jsArraySet steps position fresh
          ({ s with integration := some { i with steps := some steps' } }, .ok none)
  | .setProperties position properties =>
      match s.integration with
      | none => (s, .error "TypeError")
      | some i =>
          let steps := i.steps.getD []
          let props := stringifyValuesVal properties
          let step := steps[position]?.getD TypeFactory.createStep
          let steps' := jsArraySet steps position { step with configuredProperties := some props }
          ({ s with integration := some { i with steps := some steps' } }, .ok none)
  | .setAction position action =>
      match s.integration with
      | none => (s, .error "TypeError")
      | some i =>
          let steps := i.steps.getD []
          let step := steps[position]?.getD TypeFactory.createStep
          let step' : Step := { step with action := some action, stepKind := some "endpoint" }
          let steps' := jsArraySet steps position step'
          ({ s with integration := some { i with steps := some steps' } }, .ok none)
  | .setConnection position connection =>
      match s.integration with
      | none => (s, .error "TypeError")
      | some i =>
          let steps := i.steps.getD []
          let fresh : Step :=
            { TypeFactory.createStep with
                stepKind := some "endpoint", connection := some connection }
          let steps' := jsArraySet steps position fresh
          ({ s with integration := some { i with steps := some steps' } }, .ok none)
  | .setProperty property value =>
      match s.integration with
      -- assigning a field of the undefined this._integration throws
      | none => (s, .error "TypeError")
      | some i =>
          -- the source computes the normalized value into a local...
          let _normalized :=
            if property == "configuredProperties" then stringifyValuesVal value else value
          -- ...but assigns event['value'], the raw payload, to the document;
          -- only the configuredProperties field is representable in this
          -- typed model, assignment to any other field name passes through
          let i' :=
            if property == "configuredProperties" then
              { i with configuredProperties := some value }
            else i
          ({ s with integration := some i' }, .ok none)
  | .save =>
      match s.integration with
      -- getIntegrationClone feeds JSON.parse the undefined
      -- JSON.stringify(undefined), which throws
      | none => (s, .error "SyntaxError")
      | some i =>
          -- the clone is taken before the connections are read, so it copies
          -- the document before any lazy steps write-back
          let integration := getIntegrationClone i
          let tags := integration.tags.getD []
          match getSubsequentConnections (some i) 0 with
          | (si', none) => ({ s with integration := si' }, .error "TypeError")
          | (si', some connections) =>
              match connectorIdsOf connections with
              | .error e => ({ s with integration := si' }, .error e)
              | .ok connectorIds =>
                  ({ s with integration := si' },
                   .ok (some { integration with tags := some (mergeTags tags connectorIds) }))

/-!
The Step Kind Catalog (src/app/store/step/step.store.ts): the static registry
of step-kind descriptors and its lookup operations.
-/

/-- A step-kind descriptor: a step extended with presentation data and an
optional position-dependent visibility predicate. -/
structure StepKind extends Step where
  name : String
  description : String
  properties : JsonVal := .obj []
  visible : Option (Nat → List Step → List Step → Bool) := none

def DATA_MAPPER : String := "mapper"

def BASIC_FILTER : String := "rule-filter"

def ADVANCED_FILTER : String := "filter"

/-- The Data Mapper visibility predicate: previous steps are filtered to
those whose action has an output data shape, subsequent steps to those whose
action has an input data shape; the kind is visible only when both filtered
lists are non-empty. -/
def dataMapperVisible (_position : Nat) (previous subsequent : List Step) : Bool :=
  let prev := previous.filter fun st =>
    match st.action with
    | some a => a.outputDataShape.isSome
    | none => false
  if prev.length = 0 then false
  else
    let subs := subsequent.filter fun st =>
      match st.action with
      | some a => a.inputDataShape.isSome
      | none => false
    if subs.length = 0 then false else true

/-- The static registry, in presentation order (the commented-out descriptors
of the source are omitted just as the source omits them). -/
def stepStoreSteps : List StepKind :=
  [ { id := none
      connection := none
      action := none
      name := "Data Mapper"
      description := "Map fields from the input type to the output type"
      stepKind := some DATA_MAPPER
      visible := some dataMapperVisible
      properties := .obj []
      configuredProperties := none },
    { id := none
      connection := none
      action := none
      name := "Basic Filter"
      description := "Continue the integration only if criteria you specify in simple input fields are met. Suitable for most integrations."
      stepKind := some BASIC_FILTER
      properties := .null
      configuredProperties := none },
    { id := none
      connection := none
      action := none
      name := "Advanced Filter"
      description := "Continue the integration only if criteria you define in scripting language expressions are met."
      stepKind := some ADVANCED_FILTER
      properties := .obj [("filter", .obj
        [("type", .str "textarea"),
         ("displayName", .str "Only continue if"),
         ("required", .bool true),
         ("rows", .num 10)])]
      configuredProperties := none } ]

/-- getStepConfig(kind): first descriptor whose stepKind matches. -/
def getStepConfig (kind : String) : Option StepKind :=
  stepStoreSteps.find? fun st => st.stepKind == some kind

/-- getStepName(kind): the descriptor's name, or the raw kind if unknown. -/
def getStepName (kind : String) : String :=
  match getStepConfig kind with
  | some st => st.name
  | none => kind

/-- getStepDescription(kind): the descriptor's description, or "" if
unknown. -/
def getStepDescription (kind : String) : String :=
  match getStepConfig kind with
  | some st => st.description
  | none => ""

/-- isCustomStep(step): the two kinds with bespoke configuration handling. -/
def isCustomStep (step : Step) : Bool :=
  step.stepKind == some BASIC_FILTER || step.stepKind == some DATA_MAPPER

/-!
Helper lemmas: the JSON round trip of getIntegrationClone reproduces the
document structurally.
-/

/-- Decoding an encoded data shape gives the data shape back. -/
theorem decodeDataShape_encodeDataShape (d : DataShape) :
    decodeDataShape (encodeDataShape d) = d := rfl

/-- Decoding an encoded action gives the action back. -/
theorem decodeAction_encodeAction (a : Action) :
    decodeAction (encodeAction a) = a := by
  obtain ⟨n, din, dout⟩ := a
  cases din <;> cases dout <;> rfl

/-- Decoding an encoded connection gives the connection back. -/
theorem decodeConnection_encodeConnection (c : Connection) :
    decodeConnection (encodeConnection c) = c := by
  obtain ⟨ci, cn, cc⟩ := c
  cases ci <;> cases cn <;> rfl

/-- Decoding an encoded step gives the step back. -/
theorem decodeStep_encodeStep (st : Step) :
    decodeStep (encodeStep st) = st := by
  obtain ⟨si, sk, sc, sa, sp⟩ := st
  rcases sc with _ | ⟨ci, cn, cc⟩ <;> rcases sa with _ | ⟨an, ain, aout⟩ <;>
    cases si <;> cases sk <;> cases sp <;>
    (try cases ci) <;> (try cases cn) <;> (try cases ain) <;> (try cases aout) <;> rfl

/-- Decoding an encoded step list gives the list back. -/
theorem decodeSteps_encode (l : List Step) :
    decodeSteps (.arr (l.map encodeStep)) = l := by
  show (l.map encodeStep).map decodeStep = l
  simp [List.map_map, Function.comp_def, decodeStep_encodeStep]

/-- Decoding an encoded tag list gives the list back. -/
theorem decodeTags_encode (ts : List String) :
    decodeTags (.arr (ts.map JsonVal.str)) = ts := by
  show (ts.map JsonVal.str).filterMap asStr = ts
  induction ts with
  | nil => rfl
  | cons t ts ih => simpa [asStr] using ih

/-- The clone is structurally identical to the document it copies. -/
theorem getIntegrationClone_eq (i : Integration) : getIntegrationClone i = i := by
  obtain ⟨ii, nm, st, tg, cp⟩ := i
  cases ii <;> cases nm <;> cases st <;> cases tg <;> cases cp <;>
    simp [getIntegrationClone, encodeIntegration, decodeIntegration, encodeOptStrField,
      JsonVal.lookupField, List.lookup, asStr, decodeSteps_encode, decodeTags_encode]

/-!
Claim theorems.
-/

/-- C3: on every loaded integration, getLastPosition() returns 1 when the
step sequence has length 0 or 1, returns length - 1 when the length exceeds
1, and never returns a value below 1. -/
theorem getLastPosition_spec (i : Integration) :
    ((i.steps.getD []).length ≤ 1 → getLastPosition (some i) = some 1) ∧
    (1 < (i.steps.getD []).length →
      getLastPosition (some i) = some ((i.steps.getD []).length - 1)) ∧
    (∀ v, getLastPosition (some i) = some v → 1 ≤ v) := by
  refine ⟨fun h => ?_, fun h => ?_, fun v hv => ?_⟩
  · simp [getLastPosition, lastPositionOf, h]
  · simp [getLastPosition, lastPositionOf, Nat.not_le.mpr h]
  · simp only [getLastPosition, lastPositionOf, Option.some.injEq] at hv
    split at hv <;> omega

/-- Witness for C3 at a three-step flow and at an empty flow. -/
theorem getLastPosition_spec_witness :
    getLastPosition (some { steps := some [TypeFactory.createStep, TypeFactory.createStep, TypeFactory.createStep] }) = some 2 ∧
    getLastPosition (some { steps := some [] }) = some 1 :=
  ⟨(getLastPosition_spec _).2.1 (by decide), (getLastPosition_spec _).1 (by decide)⟩

/-- The inline previous-step filter of the Data Mapper predicate holds
exactly on steps whose action carries an output data shape. -/
theorem hasOutputShape_iff (st : Step) :
    (match st.action with
      | some a => a.outputDataShape.isSome
      | none => false) = true ↔
      ∃ a, st.action = some a ∧ a.outputDataShape.isSome := by
  cases h : st.action <;> simp [h]

/-- The inline subsequent-step filter of the Data Mapper predicate holds
exactly on steps whose action carries an input data shape. -/
theorem hasInputShape_iff (st : Step) :
    (match st.action with
      | some a => a.inputDataShape.isSome
      | none => false) = true ↔
      ∃ a, st.action = some a ∧ a.inputDataShape.isSome := by
  cases h : st.action <;> simp [h]

/-- The previous-step filter of the Data Mapper predicate keeps something
exactly when some step has an action with an output data shape. -/
theorem filterOutput_ne_nil_iff (l : List Step) :
    (l.filter fun st =>
      match st.action with
      | some a => a.outputDataShape.isSome
      | none => false) ≠ [] ↔
      ∃ st ∈ l, ∃ a, st.action = some a ∧ a.outputDataShape.isSome := by
  rw [Ne, List.filter_eq_nil_iff]
  push_neg
  constructor
  · rintro ⟨st, hmem, hp⟩
    exact ⟨st, hmem, (hasOutputShape_iff st).mp hp⟩
  · rintro ⟨st, hmem, hp⟩
    exact ⟨st, hmem, (hasOutputShape_iff st).mpr hp⟩

/-- The subsequent-step filter of the Data Mapper predicate keeps something
exactly when some step has an action with an input data shape. -/
theorem filterInput_ne_nil_iff (l : List Step) :
    (l.filter fun st =>
      match st.action with
      | some a => a.inputDataShape.isSome
      | none => false) ≠ [] ↔
      ∃ st ∈ l, ∃ a, st.action = some a ∧ a.inputDataShape.isSome := by
  rw [Ne, List.filter_eq_nil_iff]
  push_neg
  constructor
  · rintro ⟨st, hmem, hp⟩
    exact ⟨st, hmem, (hasInputShape_iff st).mp hp⟩
  · rintro ⟨st, hmem, hp⟩
    exact ⟨st, hmem, (hasInputShape_iff st).mpr hp⟩

/-- C9: the registry's Data Mapper descriptor carries dataMapperVisible, and
that predicate returns true exactly when some preceding step has an action
with a resolved output data shape and some subsequent step has an action with
a resolved input data shape; in particular it is false on an empty previous
list and false when no subsequent step has a resolved input shape. -/
theorem dataMapperVisible_iff :
    (getStepConfig DATA_MAPPER).map (fun st => st.visible) = some (some dataMapperVisible) ∧
    ∀ (position : Nat) (previous subsequent : List Step),
      dataMapperVisible position previous subsequent = true ↔
        ((∃ st ∈ previous, ∃ a, st.action = some a ∧ a.outputDataShape.isSome) ∧
         (∃ st ∈ subsequent, ∃ a, st.action = some a ∧ a.inputDataShape.isSome)) := by
  refine ⟨rfl, fun position previous subsequent => ?_⟩
  show (if (previous.filter fun st =>
        match st.action with
        | some a => a.outputDataShape.isSome
        | none => false).length = 0 then false
      else if (subsequent.filter fun st =>
        match st.action with
        | some a => a.inputDataShape.isSome
        | none => false).length = 0 then false
      else true) = true ↔ _
  split_ifs with h1 h2
  · rw [List.length_eq_zero] at h1
    simp only [Bool.false_eq_true, false_iff, not_and]
    intro hp _
    exact (filterOutput_ne_nil_iff previous).mpr hp h1
  · rw [List.length_eq_zero] at h2
    simp only [Bool.false_eq_true, false_iff, not_and]
    intro _ hs
    exact (filterInput_ne_nil_iff subsequent).mpr hs h2
  · simp only [true_iff]
    refine ⟨(filterOutput_ne_nil_iff previous).mp ?_, (filterInput_ne_nil_iff subsequent).mp ?_⟩
    · exact fun hnil => h1 (by rw [hnil]; rfl)
    · exact fun hnil => h2 (by rw [hnil]; rfl)

/-- Witness for C9: a previous step with an output shape and a subsequent
step with an input shape make the Data Mapper visible. -/
theorem dataMapperVisible_iff_witness :
    dataMapperVisible 1
      [{ action := some { name := "from", outputDataShape := some {} } }]
      [{ action := some { name := "to", inputDataShape := some {} } }] = true :=
  ((dataMapperVisible_iff.2 1
      [{ action := some { name := "from", outputDataShape := some {} } }]
      [{ action := some { name := "to", inputDataShape := some {} } }]).mpr
    ⟨⟨_, List.mem_singleton_self _, _, rfl, rfl⟩,
     ⟨_, List.mem_singleton_self _, _, rfl, rfl⟩⟩)

/-- C7: with no integration loaded, getPreviousConnection and
getSubsequentConnection do not return an undefined result: they throw a
TypeError — calling reverse on, or indexing, the null connections list —
shown here at positions 0 and 1 (the query never reads the position before
the throw, as the general lemma below records). -/
theorem connectionQueries_throw_when_unloaded :
    getPreviousConnection none 0 = (none, .error "TypeError") ∧
    getPreviousConnection none 1 = (none, .error "TypeError") ∧
    getSubsequentConnection none 0 = (none, .error "TypeError") ∧
    getSubsequentConnection none 1 = (none, .error "TypeError") :=
  ⟨rfl, rfl, rfl, rfl⟩

/-- With no integration loaded, the two nearest-connection queries throw for
every position (and, the document being absent, leave no document behind). -/
theorem connectionQueries_error_forall (position : Nat) :
    getPreviousConnection none position = (none, .error "TypeError") ∧
    getSubsequentConnection none position = (none, .error "TypeError") :=
  ⟨rfl, rfl⟩

/-- C5: issuing integration-save on a loaded integration whose flow holds a
blank endpoint placeholder (stepKind "endpoint" with no connection) makes the
handler throw a TypeError synchronously — reading connectorId off the missing
connection — rather than surfacing any failure through the error
continuation. -/
theorem save_throws_on_blank_endpoint_placeholder :
    (handleEvent .save
      { integration := some
          { steps := some [{ TypeFactory.createStep with stepKind := some "endpoint" }] },
        loaded := true }).2 = .error "TypeError" := rfl

/-- C6: integration-set-property with property configuredProperties stores
the raw payload value on the document: for value \x7bmeta: \x7ba: 1\x7d\x7d
the stored value is that object itself, while its normalization (which the
handler computes and then discards) differs from it, the meta entry having
become the serialized text. -/
theorem setProperty_stores_raw_value :
    ((handleEvent
        (.setProperty "configuredProperties" (.obj [("meta", .obj [("a", .num 1)])]))
        { integration := some { name := some "flow" }, loaded := true }).1.integration.bind
          Integration.configuredProperties)
      = some (.obj [("meta", .obj [("a", .num 1)])]) ∧
    stringifyValuesVal (.obj [("meta", .obj [("a", .num 1)])])
      = .obj [("meta", .str "\x7b\"a\":1\x7d")] ∧
    (JsonVal.obj [("meta", .obj [("a", .num 1)])]) ≠ .obj [("meta", .str "\x7b\"a\":1\x7d")] :=
  ⟨rfl, rfl, by simp⟩

/-- A string or number value passes through stringifyEntry unchanged. -/
theorem stringifyEntry_eq_self {v : JsonVal} (h : v.isStr ∨ v.isNum) :
    stringifyEntry v = v := by
  cases v <;> simp_all [JsonVal.isStr, JsonVal.isNum, stringifyEntry]

/-- Any other value becomes its serialized text under stringifyEntry. -/
theorem stringifyEntry_eq_str {v : JsonVal} (h : ¬(v.isStr ∨ v.isNum)) :
    stringifyEntry v = .str (jsonStringify v) := by
  cases v <;> simp_all [JsonVal.isStr, JsonVal.isNum, stringifyEntry]

/-- Every value stringifyEntry produces is a string or a number. -/
theorem stringifyEntry_isStrOrNum (v : JsonVal) :
    (stringifyEntry v).isStr ∨ (stringifyEntry v).isNum := by
  cases v <;> simp [stringifyEntry, JsonVal.isStr, JsonVal.isNum]

/-- C8: stringifyValues keeps a value that is already a string or a number
unchanged under its key, maps a value of any other type to its serialized
string form, and leaves every value of the result a string or a number. -/
theorem stringifyValues_normalizes (props : List (String × JsonVal))
    (k : String) (v : JsonVal) (h : (k, v) ∈ props) :
    ((v.isStr ∨ v.isNum) → (k, v) ∈ stringifyValues props) ∧
    (¬(v.isStr ∨ v.isNum) → (k, .str (jsonStringify v)) ∈ stringifyValues props) ∧
    (∀ kv ∈ stringifyValues props, kv.2.isStr ∨ kv.2.isNum) := by
  refine ⟨fun hv => ?_, fun hv => ?_, fun kv hkv => ?_⟩
  · have : (k, stringifyEntry v) ∈ stringifyValues props :=
      List.mem_map.mpr ⟨(k, v), h, rfl⟩
    rwa [stringifyEntry_eq_self hv] at this
  · have : (k, stringifyEntry v) ∈ stringifyValues props :=
      List.mem_map.mpr ⟨(k, v), h, rfl⟩
    rwa [stringifyEntry_eq_str hv] at this
  · obtain ⟨⟨k', v'⟩, _, rfl⟩ := List.mem_map.mp hkv
    exact stringifyEntry_isStrOrNum v'

/-- Witness for C8: props \x7bcount: 5, meta: \x7ba: 1\x7d\x7d — the number
passes through, the object becomes its serialized text. -/
theorem stringifyValues_normalizes_witness :
    (("count", JsonVal.num 5) ∈
      stringifyValues [("count", .num 5), ("meta", .obj [("a", .num 1)])]) ∧
    (("meta", JsonVal.str "\x7b\"a\":1\x7d") ∈
      stringifyValues [("count", .num 5), ("meta", .obj [("a", .num 1)])]) :=
  ⟨(stringifyValues_normalizes _ "count" (.num 5) (by simp)).1 (by simp [JsonVal.isNum]),
   (stringifyValues_normalizes _ "meta" (.obj [("a", .num 1)]) (by simp)).2.1
     (by simp [JsonVal.isStr, JsonVal.isNum])⟩

/-- mergeTags with no connector ids is the tag list itself. -/
theorem mergeTags_nil (tags : List String) : mergeTags tags [] = tags := rfl

/-- One step of the tag merge fold. -/
theorem mergeTags_cons (tags : List String) (cid : String) (rest : List String) :
    mergeTags tags (cid :: rest) =
      mergeTags (if tags.contains cid then tags else tags ++ [cid]) rest := rfl

/-- Tags present before the merge are still present after it. -/
theorem mem_mergeTags_left (ids : List String) :
    ∀ {tags : List String} {t : String}, t ∈ tags → t ∈ mergeTags tags ids := by
  induction ids with
  | nil => intro tags t h; exact h
  | cons c r ih =>
      intro tags t h
      rw [mergeTags_cons]
      by_cases hc : tags.contains c
      · rw [if_pos hc]; exact ih h
      · rw [if_neg hc]; exact ih (List.mem_append_left _ h)

/-- Every connector id ends up among the merged tags. -/
theorem mem_mergeTags_right (ids : List String) :
    ∀ {tags : List String} {t : String}, t ∈ ids → t ∈ mergeTags tags ids := by
  induction ids with
  | nil => intro tags t h; exact absurd h (List.not_mem_nil t)
  | cons c r ih =>
      intro tags t h
      rw [mergeTags_cons]
      rcases List.mem_cons.mp h with rfl | hr
      · by_cases hc : tags.contains t
        · rw [if_pos hc]
          exact mem_mergeTags_left r (by simpa using hc)
        · rw [if_neg hc]
          exact mem_mergeTags_left r (List.mem_append_right _ (List.mem_singleton_self t))
      · by_cases hc : tags.contains c
        · rw [if_pos hc]; exact ih hr
        · rw [if_neg hc]; exact ih hr

/-- When every connector id is already a tag, the merge changes nothing. -/
theorem mergeTags_eq_self (ids : List String) :
    ∀ {tags : List String}, (∀ t ∈ ids, t ∈ tags) → mergeTags tags ids = tags := by
  induction ids with
  | nil => intro tags _; rfl
  | cons c r ih =>
      intro tags h
      rw [mergeTags_cons, if_pos (by simpa using h c (List.mem_cons_self c r))]
      exact ih fun t ht => h t (List.mem_cons_of_mem c ht)

/-- The merge keeps a duplicate-free tag list duplicate-free. -/
theorem mergeTags_nodup (ids : List String) :
    ∀ {tags : List String}, tags.Nodup → (mergeTags tags ids).Nodup := by
  induction ids with
  | nil => intro tags h; exact h
  | cons c r ih =>
      intro tags h
      rw [mergeTags_cons]
      by_cases hc : tags.contains c
      · rw [if_pos hc]; exact ih h
      · rw [if_neg hc]
        refine ih ?_
        simp only [List.nodup_append, List.nodup_singleton, true_and]
        exact ⟨h, by simpa using hc⟩

/-- Merging does not change how often an already-present tag occurs. -/
theorem count_mergeTags_of_mem (ids : List String) :
    ∀ {tags : List String} {t : String}, t ∈ tags →
      (mergeTags tags ids).count t = tags.count t := by
  induction ids with
  | nil => intro tags t _; rfl
  | cons c r ih =>
      intro tags t h
      rw [mergeTags_cons]
      by_cases hc : tags.contains c
      · rw [if_pos hc]; exact ih h
      · rw [if_neg hc]
        have hcm : c ∉ tags := by simpa using hc
        have hne : c ≠ t := fun he => hcm (he ▸ h)
        rw [ih (List.mem_append_left _ h), List.count_append]
        simp [List.count_singleton, hne]

/-- A connector id not among the tags occurs exactly once after the merge. -/
theorem count_mergeTags_new (ids : List String) :
    ∀ {tags : List String} {t : String}, t ∉ tags → t ∈ ids →
      (mergeTags tags ids).count t = 1 := by
  induction ids with
  | nil => intro tags t _ h; exact absurd h (List.not_mem_nil t)
  | cons c r ih =>
      intro tags t hnot hmem
      rw [mergeTags_cons]
      rcases List.mem_cons.mp hmem with rfl | hr
      · rw [if_neg (by simpa using hnot)]
        rw [count_mergeTags_of_mem r (List.mem_append_right _ (List.mem_singleton_self t))]
        rw [List.count_append]
        simp [List.count_eq_zero_of_not_mem hnot]
      · by_cases hc : tags.contains c
        · rw [if_pos hc]; exact ih hnot hr
        · rw [if_neg hc]
          by_cases hct : t = c
          · subst hct
            rw [count_mergeTags_of_mem r (List.mem_append_right _ (List.mem_singleton_self t))]
            rw [List.count_append]
            simp [List.count_eq_zero_of_not_mem hnot]
          · exact ih (by simp [hnot, hct]) hr

/-- What one save run computes on a loaded state: the live document gets an
absent step list materialized to [] (the lazy write-back of the
getSubsequentConnections(0) read), and the submission — or the thrown
connector-id error — is built from the clone taken before that write-back. -/
theorem handleEvent_save_some (i : Integration) (l : Bool) :
    handleEvent .save { integration := some i, loaded := l } =
      ({ integration := some { i with steps := some (i.steps.getD []) }, loaded := l },
       match connectorIdsOf (((i.steps.getD []).drop 0).filter isEndpointStep) with
       | .error e => .error e
       | .ok connectorIds =>
           .ok (some { getIntegrationClone i with
             tags := some (mergeTags ((getIntegrationClone i).tags.getD []) connectorIds) })) := by
  cases h : connectorIdsOf (((i.steps.getD []).drop 0).filter isEndpointStep) with
  | error e =>
      rw [List.drop_zero] at h
      simp [handleEvent, getSubsequentConnections, getSubsequentSteps, h]
  | ok ids =>
      rw [List.drop_zero] at h
      simp [handleEvent, getSubsequentConnections, getSubsequentSteps, h]

/-- The two-endpoint document used by the C4 and C10 witnesses. -/
def sampleIntegration : Integration :=
  { steps := some
      [{ stepKind := some "endpoint", connection := some { connectorId := "a" } },
       { stepKind := some "endpoint", connection := some { connectorId := "b" } }],
    tags := some ["x"] }

/-- The loaded state holding that document. -/
def sampleState : FlowState :=
  { integration := some sampleIntegration, loaded := true }

/-- C4: the save tag merge adds a connector id only when it is absent:
merging the same connector ids a second time changes nothing, the merge keeps
a duplicate-free tag list duplicate-free, it does not change how often an
already-present tag occurs, a connector id not already among the tags occurs
exactly once afterwards — and a second save on the state the first one left
behind submits a copy carrying the same tag set. -/
theorem saveTagMerge_idempotent (tags connectorIds : List String) :
    mergeTags (mergeTags tags connectorIds) connectorIds = mergeTags tags connectorIds ∧
    (tags.Nodup → (mergeTags tags connectorIds).Nodup) ∧
    (∀ cid ∈ tags, (mergeTags tags connectorIds).count cid = tags.count cid) ∧
    (∀ cid ∈ connectorIds, cid ∉ tags →
      (mergeTags tags connectorIds).count cid = 1) ∧
    (∀ (s : FlowState) (sub : Integration),
      (handleEvent .save s).2 = .ok (some sub) →
      ∃ sub2, (handleEvent .save ((handleEvent .save s).1)).2 = .ok (some sub2) ∧
        sub2.tags = sub.tags) := by
  refine ⟨?_, fun h => mergeTags_nodup connectorIds h, ?_, ?_, fun s sub hsub => ?_⟩
  · exact mergeTags_eq_self connectorIds fun t ht => mem_mergeTags_right connectorIds ht
  · exact fun cid hc => count_mergeTags_of_mem connectorIds hc
  · exact fun cid hmem hnot => count_mergeTags_new connectorIds hnot hmem
  · obtain ⟨oi, l⟩ := s
    cases oi with
    | none => exact absurd hsub (by simp [handleEvent])
    | some i =>
        rw [handleEvent_save_some] at hsub ⊢
        cases hc : connectorIdsOf (((i.steps.getD []).drop 0).filter isEndpointStep) with
        | error e => rw [hc] at hsub; cases hsub
        | ok ids =>
            rw [hc] at hsub
            have hsub2 : sub = { getIntegrationClone i with
                tags := some (mergeTags ((getIntegrationClone i).tags.getD []) ids) } :=
              (Option.some.inj (Except.ok.inj hsub)).symm
            have hc2 : connectorIdsOf (((({ i with steps := some (i.steps.getD []) } :
                Integration).steps.getD []).drop 0).filter isEndpointStep)
                = Except.ok ids := hc
            refine ⟨{ getIntegrationClone ({ i with steps := some (i.steps.getD []) } :
                Integration) with
              tags := some (mergeTags
                ((getIntegrationClone ({ i with steps := some (i.steps.getD []) } :
                  Integration)).tags.getD []) ids) }, ?_, ?_⟩
            · rw [handleEvent_save_some, hc2]
            · rw [hsub2]
              simp [getIntegrationClone_eq]

/-- Witness for C4: tags ["x"] with connector ids ["a", "x", "a"], and the
double save on the sample two-endpoint state. -/
theorem saveTagMerge_idempotent_witness :
    mergeTags (mergeTags ["x"] ["a", "x", "a"]) ["a", "x", "a"]
      = mergeTags ["x"] ["a", "x", "a"] ∧
    (mergeTags ["x"] ["a", "x", "a"]).Nodup ∧
    (mergeTags ["x"] ["a", "x", "a"]).count "x" = 1 ∧
    (mergeTags ["x"] ["a", "x", "a"]).count "a" = 1 ∧
    (handleEvent .save ((handleEvent .save sampleState).1)).2
      = .ok (some { sampleIntegration with tags := some ["x", "a", "b"] }) := by
  have h := saveTagMerge_idempotent ["x"] ["a", "x", "a"]
  obtain ⟨sub2, h1, -⟩ := h.2.2.2.2 sampleState
    { sampleIntegration with tags := some ["x", "a", "b"] } rfl
  have hconc : (handleEvent .save ((handleEvent .save sampleState).1)).2
      = .ok (some { sampleIntegration with tags := some ["x", "a", "b"] }) := rfl
  have h3 : sub2 = { sampleIntegration with tags := some ["x", "a", "b"] } :=
    Option.some.inj (Except.ok.inj (h1.symm.trans hconc))
  exact ⟨h.1, h.2.1 (by decide), (h.2.2.1 "x" (by decide)).trans (by decide),
    h.2.2.2.1 "a" (by decide) (by decide), h3 ▸ h1⟩

/-- C10 counterexample: on a loaded document whose step list is absent,
issuing integration-save does change the live document — the
getSubsequentConnections(0) read inside the save branch materializes
steps to [] — so the state after the synchronous portion differs from the
state before, against the claim that every field is identical. -/
theorem save_mutates_absent_steps_counterexample :
    (handleEvent .save { integration := some { name := some "flow" }, loaded := true }).1
      ≠ { integration := some { name := some "flow" }, loaded := true } := by
  intro h
  have h2 : (some (some ([] : List Step)) : Option (Option (List Step))) = some none :=
    congrArg (fun st => st.integration.map Integration.steps) h
  simp at h2

/-- C10 (amended): the synchronous save path applies the tag merge only to
the structural deep clone: the live document keeps its id, name, tags and
configured properties, and its step list is touched only by the lazy getter
write-back that materializes an absent list to [] — when the step list is
present the live document is entirely unchanged. The submitted copy is the
clone of the pre-write-back document with only its tags replaced by the merge
result. -/
theorem save_touches_live_integration_only_by_steps_init (s : FlowState) (i : Integration)
    (hi : s.integration = some i) :
    (handleEvent .save s).1
      = { s with integration := some { i with steps := some (i.steps.getD []) } } ∧
    (∀ sl, i.steps = some sl → (handleEvent .save s).1 = s) ∧
    getIntegrationClone i = i ∧
    (∀ ids, connectorIdsOf (((i.steps.getD []).drop 0).filter isEndpointStep) = .ok ids →
      (handleEvent .save s).2 =
        .ok (some { i with tags := some (mergeTags (i.tags.getD []) ids) })) := by
  obtain ⟨oi, l⟩ := s
  cases oi with
  | none => cases hi
  | some i' =>
      cases hi
      rw [handleEvent_save_some]
      refine ⟨rfl, fun sl hsl => ?_, getIntegrationClone_eq i, fun ids hids => ?_⟩
      · obtain ⟨ii, nm, st, tg, cp⟩ := i
        cases hsl
        rfl
      · rw [hids, getIntegrationClone_eq i]

/-- Witness for C10: on the two-endpoint flow (step list present) with tags
["x"], the live state comes back unchanged and the submitted copy carries the
merged tags. -/
theorem save_touches_live_integration_only_by_steps_init_witness :
    (handleEvent .save sampleState).1 = sampleState ∧
    (handleEvent .save sampleState).2
      = .ok (some { sampleIntegration with tags := some ["x", "a", "b"] }) := by
  have h := save_touches_live_integration_only_by_steps_init sampleState sampleIntegration rfl
  exact ⟨h.2.1 _ rfl, h.2.2.2 ["a", "b"] rfl⟩

/-- C2: integration-insert-step at a position p of a loaded flow of length n
yields a flow of length n + 1 whose newly created blank step sits at index
p + 1; the steps at indices up to p are unchanged and each step previously at
an index q ≥ p + 1 now sits at index q + 1. -/
theorem insertStep_shifts_up (s : FlowState) (i i' : Integration) (p : Nat)
    (hi : s.integration = some i)
    (hp : p < (i.steps.getD []).length)
    (hr : (handleEvent (.insertStep p) s).1.integration = some i') :
    (handleEvent (.insertStep p) s).2 = .ok none ∧
    (i'.steps.getD []).length = (i.steps.getD []).length + 1 ∧
    (i'.steps.getD [])[p + 1]? = some TypeFactory.createStep ∧
    (∀ q, q ≤ p → (i'.steps.getD [])[q]? = (i.steps.getD [])[q]?) ∧
    (∀ q, p + 1 ≤ q → (i'.steps.getD [])[q + 1]? = (i.steps.getD [])[q]?) := by
  obtain ⟨oi, l⟩ := s
  cases oi with
  | none => cases hi
  | some i =>
      cases hi
      have h2 : some ({ i with
          steps := some (insertStepAfter (i.steps.getD []) p) } : Integration) = some i' := hr
      injection h2 with h2
      subst h2
      refine ⟨rfl, ?_, ?_, ?_, ?_⟩ <;>
        simp only [insertStepAfter, jsSpliceInsert, Option.getD_some]
      all_goals
        have hlen : (List.take (p + 1) (i.steps.getD [])).length = p + 1 := by
          rw [List.length_take]; omega
      · simp only [List.length_append, List.length_cons, List.length_drop, hlen]
        omega
      · rw [List.getElem?_append_right (by rw [hlen]), hlen]
        simp
      · intro q hq
        rw [List.getElem?_append, if_pos (by rw [hlen]; omega), List.getElem?_take]
        rw [if_pos (by omega)]
      · intro q hq
        rw [List.getElem?_append_right (by rw [hlen]; omega), hlen]
        have hidx : q + 1 - (p + 1) = (q - (p + 1)) + 1 := by omega
        rw [hidx, List.getElem?_cons_succ, List.getElem?_drop]
        congr 1
        omega

/-- The two-step document the C2 witness starts from. -/
def insertWitnessInt : Integration :=
  { steps := some [{ id := some "A" }, { id := some "B" }] }

/-- Witness for C2: inserting after position 0 of a two-step flow gives
length 3, the blank step at index 1, the old steps at indices 0 and 2. -/
theorem insertStep_shifts_up_witness :
    (handleEvent (.insertStep 0) { integration := some insertWitnessInt, loaded := true }).2
      = .ok none ∧
    ((({ insertWitnessInt with steps := some [{ id := some "A" }, TypeFactory.createStep, { id := some "B" }] } : Integration).steps.getD []).length = 3 ∧
     (({ insertWitnessInt with steps := some [{ id := some "A" }, TypeFactory.createStep, { id := some "B" }] } : Integration).steps.getD [])[1]? = some TypeFactory.createStep ∧
     (({ insertWitnessInt with steps := some [{ id := some "A" }, TypeFactory.createStep, { id := some "B" }] } : Integration).steps.getD [])[0]? = some { id := some "A" } ∧
     (({ insertWitnessInt with steps := some [{ id := some "A" }, TypeFactory.createStep, { id := some "B" }] } : Integration).steps.getD [])[2]? = some { id := some "B" }) := by
  have h := insertStep_shifts_up
    { integration := some insertWitnessInt, loaded := true } insertWitnessInt
    { insertWitnessInt with steps := some [{ id := some "A" }, TypeFactory.createStep, { id := some "B" }] }
    0 rfl (by decide) rfl
  exact ⟨h.1, h.2.1, h.2.2.1, (h.2.2.2.1 0 (by decide)).trans rfl, (h.2.2.2.2 1 (by decide)).trans rfl⟩

/-- C1: on a loaded integration, integration-remove-step at the first or the
last position replaces that position with a blank endpoint placeholder — the
flow never shrinks and an endpoint-kind step sits at that position — while at
a strictly interior position it deletes the step, shrinking the flow by
exactly one and shifting every later position down by one. -/
theorem removeStep_boundary_replaces_interior_deletes
    (s : FlowState) (i i' : Integration) (p : Nat)
    (hi : s.integration = some i)
    (hr : (handleEvent (.removeStep p) s).1.integration = some i') :
    (handleEvent (.removeStep p) s).2 = .ok none ∧
    ((p = 0 ∨ p = lastPositionOf i) →
      (i.steps.getD []).length ≤ (i'.steps.getD []).length ∧
      (i'.steps.getD [])[p]? =
        some { TypeFactory.createStep with stepKind := some "endpoint" }) ∧
    (0 < p ∧ p < lastPositionOf i →
      (i'.steps.getD []).length = (i.steps.getD []).length - 1 ∧
      (∀ q, q < p → (i'.steps.getD [])[q]? = (i.steps.getD [])[q]?) ∧
      (∀ q, p ≤ q → (i'.steps.getD [])[q]? = (i.steps.getD [])[q + 1]?)) := by
  obtain ⟨oi, l⟩ := s
  cases oi with
  | none => cases hi
  | some i =>
      cases hi
      by_cases hb : p = 0 ∨ p = lastPositionOf i
      · have h2 : some ({ i with
            steps := some (jsArraySet (i.steps.getD []) p
              { TypeFactory.createStep with stepKind := some "endpoint" }) } : Integration)
            = some i' := by
          rw [← hr]
          show _ = (if p = 0 ∨ p = lastPositionOf i then _ else _ : FlowState × _).1.integration
          rw [if_pos hb]
        injection h2 with h2
        subst h2
        refine ⟨?_, fun _ => ⟨?_, ?_⟩, fun hint => ?_⟩
        · show (if p = 0 ∨ p = lastPositionOf i then _ else _ : FlowState × _).2 = _
          rw [if_pos hb]
        · simp only [Option.getD_some, jsArraySet]
          split
          · simp
          · simp only [List.length_append, List.length_replicate, List.length_cons]
            omega
        · simp only [Option.getD_some, jsArraySet]
          split
          · next hlt => exact List.getElem?_set_self hlt
          · next hge =>
              have hl : (i.steps.getD [] ++
                  List.replicate (p - (i.steps.getD []).length) TypeFactory.createStep).length
                  = p := by
                simp only [List.length_append, List.length_replicate]
                omega
              rw [List.getElem?_append_right (le_of_eq hl), hl]
              simp
        · rcases hb with rfl | hb'
          · omega
          · omega
      · have h2 : some ({ i with
            steps := some (jsSpliceDelete (i.steps.getD []) p) } : Integration)
            = some i' := by
          rw [← hr]
          show _ = (if p = 0 ∨ p = lastPositionOf i then _ else _ : FlowState × _).1.integration
          rw [if_neg hb]
        injection h2 with h2
        subst h2
        refine ⟨?_, fun hb' => absurd hb' hb, fun hint => ?_⟩
        · show (if p = 0 ∨ p = lastPositionOf i then _ else _ : FlowState × _).2 = _
          rw [if_neg hb]
        · have hlen : p + 1 ≤ (i.steps.getD []).length := by
            have h3 := hint.2
            unfold lastPositionOf at h3
            split at h3 <;> omega
          have htk : (List.take p (i.steps.getD [])).length = p := by
            rw [List.length_take]; omega
          refine ⟨?_, ?_, ?_⟩ <;> simp only [Option.getD_some, jsSpliceDelete]
          · simp only [List.length_append, List.length_take, List.length_drop]
            omega
          · intro q hq
            rw [List.getElem?_append, if_pos (by rw [htk]; omega), List.getElem?_take]
            rw [if_pos (by omega)]
          · intro q hq
            rw [List.getElem?_append_right (by rw [htk]; omega), htk, List.getElem?_drop]
            congr 1
            omega

/-- The three-step document the C1 witness starts from. -/
def removeWitnessInt : Integration :=
  { steps := some [{ id := some "A", stepKind := some "endpoint" }, { id := some "M" }, { id := some "B", stepKind := some "endpoint" }] }

/-- Witness for C1: removing position 0 of a three-step flow keeps length 3
and leaves a blank endpoint at position 0; removing the interior position 1
shrinks the flow to [first, last]. -/
theorem removeStep_boundary_interior_witness :
    ((handleEvent (.removeStep 0) { integration := some removeWitnessInt, loaded := true }).2
        = .ok none ∧
     3 ≤ ((({ removeWitnessInt with steps := some [{ TypeFactory.createStep with stepKind := some "endpoint" }, { id := some "M" }, { id := some "B", stepKind := some "endpoint" }] } : Integration).steps.getD []).length) ∧
     (({ removeWitnessInt with steps := some [{ TypeFactory.createStep with stepKind := some "endpoint" }, { id := some "M" }, { id := some "B", stepKind := some "endpoint" }] } : Integration).steps.getD [])[0]?
        = some { TypeFactory.createStep with stepKind := some "endpoint" }) ∧
    (((({ removeWitnessInt with steps := some [{ id := some "A", stepKind := some "endpoint" }, { id := some "B", stepKind := some "endpoint" }] } : Integration).steps.getD []).length = 2) ∧
     (({ removeWitnessInt with steps := some [{ id := some "A", stepKind := some "endpoint" }, { id := some "B", stepKind := some "endpoint" }] } : Integration).steps.getD [])[0]?
        = some { id := some "A", stepKind := some "endpoint" } ∧
     (({ removeWitnessInt with steps := some [{ id := some "A", stepKind := some "endpoint" }, { id := some "B", stepKind := some "endpoint" }] } : Integration).steps.getD [])[1]?
        = some { id := some "B", stepKind := some "endpoint" }) := by
  have h0 := removeStep_boundary_replaces_interior_deletes
    { integration := some removeWitnessInt, loaded := true } removeWitnessInt
    { removeWitnessInt with steps := some [{ TypeFactory.createStep with stepKind := some "endpoint" }, { id := some "M" }, { id := some "B", stepKind := some "endpoint" }] }
    0 rfl rfl
  have h1 := removeStep_boundary_replaces_interior_deletes
    { integration := some removeWitnessInt, loaded := true } removeWitnessInt
    { removeWitnessInt with steps := some [{ id := some "A", stepKind := some "endpoint" }, { id := some "B", stepKind := some "endpoint" }] }
    1 rfl rfl
  have hb0 := h0.2.1 (Or.inl rfl)
  have hi1 := h1.2.2 ⟨by decide, by decide⟩
  exact ⟨⟨h0.1, hb0.1, hb0.2⟩,
    hi1.1, (hi1.2.1 0 (by decide)).trans rfl, (hi1.2.2 1 (by decide)).trans rfl⟩

end Syndesis
